import Mathlib

/-!
Verification of the `Vector3D` header (`src/vector3d.h`): a templated
three-component vector with arithmetic, geometric and stream operations.

The element type `Type` of the C++ template becomes a type parameter `α`.
Operations whose C++ result type is `double` (`module`, `direction`,
`distance`) are embedded over `ℝ`; the purely componentwise operators are
embedded generically over the algebraic structure they use.  The stream
operators are embedded at the character level over `Int` components:
`writeVector` renders the exact text `operator<<` produces, and
`readVector3D` models `operator>>` extracting three values through a
`std::istream`-style state.
-/

namespace Vec3

/-- The class `Vector3D<Type>`: three components `m_x, m_y, m_z` of the
element type, here `α`. -/
structure Vector3D (α : Type) where
  x : α
  y : α
  z : α
  deriving DecidableEq

/-- The default constructor `Vector3D() : m_x(0), m_y(0), m_z(0)`. -/
def zeroVec (α : Type) [Zero α] : Vector3D α := ⟨0, 0, 0⟩

/-- `setX`: `m_x = x`, the other fields untouched. -/
def setX {α : Type} (A : Vector3D α) (v : α) : Vector3D α := { A with x := v }

/-- `setY`: `m_y = y`, the other fields untouched. -/
def setY {α : Type} (A : Vector3D α) (v : α) : Vector3D α := { A with y := v }

/-- `setZ`: `m_z = z`, the other fields untouched. -/
def setZ {α : Type} (A : Vector3D α) (v : α) : Vector3D α := { A with z := v }

/-- `operator+`: componentwise sum. -/
def addV {α : Type} [Add α] (A B : Vector3D α) : Vector3D α :=
  ⟨A.x + B.x, A.y + B.y, A.z + B.z⟩

/-- `operator-`: componentwise difference, `A` minus `B`. -/
def subV {α : Type} [Sub α] (A B : Vector3D α) : Vector3D α :=
  ⟨A.x - B.x, A.y - B.y, A.z - B.z⟩

/-- `operator*(const Type s, const Vector3D<Type>& A)`:
scalar times vector, each component `s * A.c`. -/
def mulScalarVec {α : Type} [Mul α] (s : α) (A : Vector3D α) : Vector3D α :=
  ⟨s * A.x, s * A.y, s * A.z⟩

/-- `operator*(const Vector3D<Type>& A, const Type s)`: the body again
multiplies on the left, `s * A.c`, exactly as the source writes it. -/
def mulVecScalar {α : Type} [Mul α] (A : Vector3D α) (s : α) : Vector3D α :=
  ⟨s * A.x, s * A.y, s * A.z⟩

/-- `operator*(Vector3D, Vector3D)`: the componentwise (Hadamard) product. -/
def mulVecVec {α : Type} [Mul α] (A B : Vector3D α) : Vector3D α :=
  ⟨A.x * B.x, A.y * B.y, A.z * B.z⟩

/-- `operator/(Vector3D, Type)`: each component of `A` divided by `s`;
the source has no guard against `s = 0`. -/
def divVecScalar {α : Type} [Div α] (A : Vector3D α) (s : α) : Vector3D α :=
  ⟨A.x / s, A.y / s, A.z / s⟩

/-- `operator/(Vector3D, Vector3D)`: componentwise quotient. -/
def divVecVec {α : Type} [Div α] (A B : Vector3D α) : Vector3D α :=
  ⟨A.x / B.x, A.y / B.y, A.z / B.z⟩

/-- `operator==`: true iff all three components match exactly. -/
def eqV {α : Type} [DecidableEq α] (A B : Vector3D α) : Bool :=
  decide (A.x = B.x) && decide (A.y = B.y) && decide (A.z = B.z)

/-- `scalarProduct`: builds `C = A * B` with the Hadamard product and
returns `C.x + C.y + C.z`. -/
def scalarProduct {α : Type} [Mul α] [Add α] (A B : Vector3D α) : α :=
  let C := mulVecVec A B
  C.x + C.y + C.z

/-- `crossProduct`: the standard 3D cross product, components written as
in the source. -/
def crossProduct {α : Type} [Mul α] [Sub α] (A B : Vector3D α) : Vector3D α :=
  ⟨A.y * B.z - A.z * B.y, A.z * B.x - A.x * B.z, A.x * B.y - A.y * B.x⟩

/-- `module()`: `sqrt(m_x*m_x + m_y*m_y + m_z*m_z)`, a `double`; the
element type is `double` here, embedded as `ℝ`. -/
noncomputable def module (A : Vector3D ℝ) : ℝ :=
  Real.sqrt (A.x * A.x + A.y * A.y + A.z * A.z)

/-- `direction()`: `(*this) / this->module()`, with no guard on a zero
module (real division is total in the embedding, as the C++ float
division raises no exception). -/
noncomputable def direction (A : Vector3D ℝ) : Vector3D ℝ :=
  divVecScalar A (module A)

/-- `distance`: `sqrt` of the sum of squared component differences,
computed directly as in the source (not by calling `module`). -/
noncomputable def distance (A B : Vector3D ℝ) : ℝ :=
  Real.sqrt ((A.x - B.x) * (A.x - B.x) + (A.y - B.y) * (A.y - B.y) +
    (A.z - B.z) * (A.z - B.z))

/-!
The stream operators, embedded at the character level for `Type = int`.
`operator<<` prints each component with `std::ostream`'s decimal integer
formatting and separates them by `", "`; `operator>>` extracts three
values with `std::istream`'s formatted integer extraction.  Both library
behaviours (decimal rendering, whitespace skipping, sign handling,
maximal digit run, C++11 fail semantics) are modelled below.
-/

/-- The character for the decimal digit `d < 10` (code point `48 + d`). -/
def digitChar (d : Nat) : Char := Char.ofNat (48 + d)

/-- Decimal digits of `n`, most significant first, prefixed to `acc`:
the rendering `std::ostream` gives a non-negative integer. -/
def natCharsAux (n : Nat) (acc : List Char) : List Char :=
  if n < 10 then digitChar n :: acc
  else natCharsAux (n / 10) (digitChar (n % 10) :: acc)
termination_by n
decreasing_by omega

/-- Decimal digits of `n`, most significant first. -/
def natChars (n : Nat) : List Char := natCharsAux n []

/-- `std::ostream` rendering of an `int`: a `-` sign followed by the
digits of the magnitude when negative, just the digits otherwise. -/
def intChars (n : Int) : List Char :=
  if n < 0 then '-' :: natChars n.natAbs else natChars n.toNat

/-- `operator<<`: `os << A.x() << ", " << A.y() << ", " << A.z()` —
the components separated by comma-space, no trailing newline. -/
def writeVector (A : Vector3D Int) : List Char :=
  intChars A.x ++ [',', ' '] ++ intChars A.y ++ [',', ' '] ++ intChars A.z

/-- The round-trip precondition of the spec: every comma of the printed
text is turned into a delimiter (a space). -/
def stripCommas (l : List Char) : List Char :=
  l.map fun c => if c = ',' then ' ' else c

/-- The whitespace characters skipped by formatted extraction. -/
def isSpaceCh (c : Char) : Bool :=
  decide (c.toNat = 32) || decide (c.toNat = 9) ||
    decide (c.toNat = 10) || decide (c.toNat = 13)

/-- Decimal digit test, by code point (`'0'` to `'9'`). -/
def isDigitCh (c : Char) : Bool :=
  decide (48 ≤ c.toNat) && decide (c.toNat ≤ 57)

/-- Numeric value of a digit character. -/
def digitVal (c : Char) : Nat := c.toNat - 48

/-- Value of a run of digit characters, most significant first. -/
def readNat (l : List Char) : Nat :=
  l.foldl (fun a c => 10 * a + digitVal c) 0

/-- `std::istream` formatted `int` extraction from the characters `l`:
skip whitespace, read an optional sign and a maximal non-empty run of
digits; on success return the value and the unconsumed characters, on
failure (no digits, or end of input) return `none`. -/
def extractInt (l : List Char) : Option (Int × List Char) :=
  match l.dropWhile (fun c => isSpaceCh c) with
  | [] => none
  | c :: rest =>
    if c = '-' then
      let ds := rest.takeWhile (fun d => isDigitCh d)
      if ds = [] then none
      else some (-(readNat ds : Int), rest.dropWhile (fun d => isDigitCh d))
    else if c = '+' then
      let ds := rest.takeWhile (fun d => isDigitCh d)
      if ds = [] then none
      else some ((readNat ds : Int), rest.dropWhile (fun d => isDigitCh d))
    else
      let ds := (c :: rest).takeWhile (fun d => isDigitCh d)
      if ds = [] then none
      else some ((readNat ds : Int), (c :: rest).dropWhile (fun d => isDigitCh d))

/-- An input stream: the unread characters and the failbit. -/
structure IStreamState where
  chars : List Char
  failbit : Bool
  deriving DecidableEq

/-- One `is >> x` step on an `int` variable whose current content is
`cur`, with C++11 semantics: extraction on a failed stream is a no-op
that leaves the variable at its current (possibly indeterminate) value;
a failed extraction stores `0` and raises the failbit; a successful one
stores the value read. -/
def extractStep (s : IStreamState) (cur : Int) : IStreamState × Int :=
  if s.failbit then (s, cur)
  else
    match extractInt s.chars with
    | some (v, rest) => (⟨rest, false⟩, v)
    | none => (⟨s.chars, true⟩, 0)

/-- `operator>>(istream, Vector3D<int>)`: the locals `x, y, z` are
declared uninitialized (junk values `jx, jy, jz`), `is >> x >> y >> z`
runs, and then `A.setX(x); A.setY(y); A.setZ(z)` execute
unconditionally, whatever the stream state. -/
def readVector3D (s : IStreamState) (A : Vector3D Int) (jx jy jz : Int) :
    IStreamState × Vector3D Int :=
  let p1 := extractStep s jx
  let p2 := extractStep p1.1 jy
  let p3 := extractStep p2.1 jz
  (p3.1, setZ (setY (setX A p1.2) p2.2) p3.2)

/-- `eqV` decides propositional equality of vectors: the exact
componentwise comparison of `operator==`. -/
theorem eqV_iff {α : Type} [DecidableEq α] (A B : Vector3D α) :
    eqV A B = true ↔ A = B := by
  cases A with
  | mk ax ay az =>
    cases B with
    | mk bx by_ bz =>
      simp [eqV, Vector3D.mk.injEq, and_assoc]

/-!
Helper lemmas about the decimal rendering and the extraction model.
-/

/-- A single-digit number renders as one character. -/
theorem natChars_of_lt {n : Nat} (h : n < 10) : natChars n = [digitChar n] := by
  rw [natChars, natCharsAux, if_pos h]

/-- The accumulator of `natCharsAux` is appended after the digits. -/
theorem natCharsAux_append (n : Nat) : ∀ acc, natCharsAux n acc = natChars n ++ acc := by
  induction n using Nat.strong_induction_on with
  | _ n ih =>
    intro acc
    by_cases h : n < 10
    · rw [natCharsAux, if_pos h, natChars_of_lt h]
      rfl
    · have hr : natChars n = natCharsAux (n / 10) [digitChar (n % 10)] := by
        rw [natChars, natCharsAux, if_neg h]
      rw [natCharsAux, if_neg h, ih (n / 10) (by omega), hr, ih (n / 10) (by omega),
        List.append_assoc]
      rfl

/-- A number of at least two digits renders as its leading digits
followed by its last one. -/
theorem natChars_of_ge {n : Nat} (h : 10 ≤ n) :
    natChars n = natChars (n / 10) ++ [digitChar (n % 10)] := by
  have hr : natChars n = natCharsAux (n / 10) [digitChar (n % 10)] := by
    rw [natChars, natCharsAux, if_neg (by omega)]
  rw [hr, natCharsAux_append]

/-- Every number renders as at least one character (zero as `'0'`). -/
theorem natChars_ne_nil (n : Nat) : natChars n ≠ [] := by
  by_cases h : n < 10
  · simp [natChars_of_lt h]
  · simp [natChars_of_ge (show 10 ≤ n by omega)]

/-- The character of a digit passes the digit test. -/
theorem isDigitCh_digitChar {d : Nat} (h : d < 10) : isDigitCh (digitChar d) = true := by
  interval_cases d <;> decide

/-- The character of a digit evaluates back to the digit. -/
theorem digitVal_digitChar {d : Nat} (h : d < 10) : digitVal (digitChar d) = d := by
  interval_cases d <;> decide

/-- Every character of a rendered number is a digit. -/
theorem natChars_all_digits (n : Nat) : ∀ c ∈ natChars n, isDigitCh c = true := by
  induction n using Nat.strong_induction_on with
  | _ n ih =>
    by_cases h : n < 10
    · intro c hc
      rw [natChars_of_lt h, List.mem_singleton] at hc
      exact hc ▸ isDigitCh_digitChar h
    · intro c hc
      rw [natChars_of_ge (show 10 ≤ n by omega), List.mem_append] at hc
      rcases hc with hc | hc
      · exact ih (n / 10) (by omega) c hc
      · rw [List.mem_singleton] at hc
        exact hc ▸ isDigitCh_digitChar (by omega)

/-- Folding the digit-accumulation step over a rendered number from any
starting accumulator shifts the accumulator past the digits and adds
the number. -/
theorem foldl_natChars (n : Nat) :
    ∀ a : Nat, (natChars n).foldl (fun a c => 10 * a + digitVal c) a =
      a * 10 ^ (natChars n).length + n := by
  induction n using Nat.strong_induction_on with
  | _ n ih =>
    intro a
    by_cases h : n < 10
    · rw [natChars_of_lt h]
      simp [digitVal_digitChar h]
      ring
    · rw [natChars_of_ge (show 10 ≤ n by omega), List.foldl_append,
        ih (n / 10) (by omega), List.length_append]
      simp [digitVal_digitChar (show n % 10 < 10 by omega)]
      ring_nf
      omega

/-- A natural number written in decimal and read back is itself. -/
theorem readNat_natChars (n : Nat) : readNat (natChars n) = n := by
  rw [readNat, foldl_natChars]
  simp

/-- A digit character is not whitespace, a comma, or a sign. -/
theorem isDigitCh_class {c : Char} (h : isDigitCh c = true) :
    isSpaceCh c = false ∧ c ≠ ',' ∧ c ≠ '-' ∧ c ≠ '+' := by
  simp only [isDigitCh, Bool.and_eq_true, decide_eq_true_eq] at h
  refine ⟨?_, ?_, ?_, ?_⟩
  · simp only [isSpaceCh, Bool.or_eq_false_iff, decide_eq_false_iff_not]
    omega
  · rintro rfl
    revert h
    decide
  · rintro rfl
    revert h
    decide
  · rintro rfl
    revert h
    decide

/-- `takeWhile` runs through a block that satisfies the predicate. -/
theorem takeWhile_append_all {p : Char → Bool} {t : List Char}
    (h : ∀ c ∈ t, p c = true) (r : List Char) :
    (t ++ r).takeWhile p = t ++ r.takeWhile p := by
  induction t with
  | nil => rfl
  | cons c cs ih =>
    have hc : p c = true := h c (List.mem_cons_self c cs)
    simp only [List.cons_append, List.takeWhile_cons, hc, if_true]
    rw [ih fun d hd => h d (List.mem_cons_of_mem c hd)]

/-- `dropWhile` removes a whole block that satisfies the predicate. -/
theorem dropWhile_append_all {p : Char → Bool} {t : List Char}
    (h : ∀ c ∈ t, p c = true) (r : List Char) :
    (t ++ r).dropWhile p = r.dropWhile p := by
  induction t with
  | nil => rfl
  | cons c cs ih =>
    have hc : p c = true := h c (List.mem_cons_self c cs)
    simp only [List.cons_append, List.dropWhile_cons, hc, if_true]
    exact ih fun d hd => h d (List.mem_cons_of_mem c hd)

/-- `takeWhile` stops at a failing head. -/
theorem takeWhile_cons_neg {p : Char → Bool} {c : Char} (h : p c = false) (l : List Char) :
    (c :: l).takeWhile p = [] := by
  simp [List.takeWhile_cons, h]

/-- `dropWhile` stops at a failing head. -/
theorem dropWhile_cons_neg {p : Char → Bool} {c : Char} (h : p c = false) (l : List Char) :
    (c :: l).dropWhile p = c :: l := by
  simp [List.dropWhile_cons, h]

/-- Extraction of the printed form of `n` followed by text that does
not begin with a digit consumes exactly the printed form and yields
`n` back. -/
theorem extractInt_intChars (n : Int) {r : List Char}
    (hr : ∀ c t, r = c :: t → isDigitCh c = false) :
    extractInt (intChars n ++ r) = some (n, r) := by
  have hrt : r.takeWhile (fun d => isDigitCh d) = [] := by
    cases r with
    | nil => rfl
    | cons c t => exact takeWhile_cons_neg (hr c t rfl) t
  have hrd : r.dropWhile (fun d => isDigitCh d) = r := by
    cases r with
    | nil => rfl
    | cons c t => exact dropWhile_cons_neg (hr c t rfl) t
  by_cases hn : n < 0
  · rw [intChars, if_pos hn]
    have hall : ∀ c ∈ natChars n.natAbs, (fun d => isDigitCh d) c = true :=
      natChars_all_digits n.natAbs
    have hds : (natChars n.natAbs ++ r).takeWhile (fun d => isDigitCh d) =
        natChars n.natAbs := by
      rw [takeWhile_append_all hall r, hrt, List.append_nil]
    have hdd : (natChars n.natAbs ++ r).dropWhile (fun d => isDigitCh d) = r := by
      rw [dropWhile_append_all hall r, hrd]
    have hscrut : (('-' :: natChars n.natAbs ++ r).dropWhile fun c => isSpaceCh c) =
        '-' :: (natChars n.natAbs ++ r) := by
      rw [List.cons_append]
      exact dropWhile_cons_neg (by decide) _
    simp only [extractInt, hscrut]
    rw [if_pos trivial, hds, hdd, if_neg (natChars_ne_nil n.natAbs), readNat_natChars]
    have hv : -((n.natAbs : Nat) : Int) = n := by omega
    rw [hv]
  · rw [intChars, if_neg hn]
    obtain ⟨c, t, hct⟩ := List.exists_cons_of_ne_nil (natChars_ne_nil n.toNat)
    have hc : isDigitCh c = true :=
      natChars_all_digits n.toNat c (by rw [hct]; exact List.mem_cons_self c t)
    obtain ⟨hcs, hcomma, hminus, hplus⟩ := isDigitCh_class hc
    have hall : ∀ d ∈ natChars n.toNat, (fun e => isDigitCh e) d = true :=
      natChars_all_digits n.toNat
    have hds : (natChars n.toNat ++ r).takeWhile (fun d => isDigitCh d) =
        natChars n.toNat := by
      rw [takeWhile_append_all hall r, hrt, List.append_nil]
    have hdd : (natChars n.toNat ++ r).dropWhile (fun d => isDigitCh d) = r := by
      rw [dropWhile_append_all hall r, hrd]
    have hscrut : ((natChars n.toNat ++ r).dropWhile fun c => isSpaceCh c) =
        c :: (t ++ r) := by
      rw [hct, List.cons_append]
      exact dropWhile_cons_neg hcs _
    have hback : c :: (t ++ r) = natChars n.toNat ++ r := by
      rw [hct, List.cons_append]
    simp only [extractInt, hscrut]
    rw [if_neg hminus, if_neg hplus, hback, hds, hdd,
      if_neg (natChars_ne_nil n.toNat), readNat_natChars]
    have hv : ((n.toNat : Nat) : Int) = n := by omega
    rw [hv]

/-- Extraction skips a leading whitespace character. -/
theorem extractInt_cons_space {c : Char} (h : isSpaceCh c = true) (l : List Char) :
    extractInt (c :: l) = extractInt l := by
  simp only [extractInt, List.dropWhile_cons, h, if_true]

/-- The printed form of an integer contains no comma. -/
theorem intChars_no_comma (n : Int) : ∀ c ∈ intChars n, ¬ c = ',' := by
  intro c hc
  rw [intChars] at hc
  by_cases hn : n < 0
  · rw [if_pos hn, List.mem_cons] at hc
    rcases hc with hc | hc
    · rw [hc]
      decide
    · exact (isDigitCh_class (natChars_all_digits n.natAbs c hc)).2.1
  · rw [if_neg hn] at hc
    exact (isDigitCh_class (natChars_all_digits n.toNat c hc)).2.1

/-- `stripCommas` distributes over concatenation. -/
theorem stripCommas_append (l1 l2 : List Char) :
    stripCommas (l1 ++ l2) = stripCommas l1 ++ stripCommas l2 :=
  List.map_append _ l1 l2

/-- `stripCommas` leaves comma-free text untouched. -/
theorem stripCommas_eq_self {l : List Char} (h : ∀ c ∈ l, ¬ c = ',') :
    stripCommas l = l := by
  induction l with
  | nil => rfl
  | cons c t ih =>
    simp only [stripCommas, List.map_cons]
    rw [if_neg (h c (List.mem_cons_self c t))]
    have ht := ih fun d hd => h d (List.mem_cons_of_mem c hd)
    rw [stripCommas] at ht
    rw [ht]

/-!
The claims.
-/

/-- C1: `direction()` returns the vector of `A`'s components each
divided by `module(A)`, with no guard added for a zero module: the
equation holds for every `A`, the all-zero vector included, and the
operation is total (no exception path exists).  The IEEE infinite/NaN
payload of a literal `x/0` is outside the real-number embedding, where
division is the total real division. -/
theorem direction_unguarded_div (A : Vector3D ℝ) :
    direction A = ⟨A.x / module A, A.y / module A, A.z / module A⟩ := rfl

theorem direction_unguarded_div_check :
    direction (⟨0, 0, 0⟩ : Vector3D ℝ) =
      ⟨0 / module ⟨0, 0, 0⟩, 0 / module ⟨0, 0, 0⟩, 0 / module ⟨0, 0, 0⟩⟩ :=
  direction_unguarded_div ⟨0, 0, 0⟩

/-- C2: `scalarProduct(A, B)` is the sum of the components of the
Hadamard product `A * B`, i.e. `A.x*B.x + A.y*B.y + A.z*B.z`, and it is
symmetric in its arguments.  The statement is generic in the element
type (any commutative ring, so both the integer and the real
instantiations); the C++ widening of the element-type sum to `double`
is the exact embedding `ℤ → ℝ` and changes no value. -/
theorem scalarProduct_hadamard_sum_comm (α : Type) [CommRing α] (A B : Vector3D α) :
    scalarProduct A B = A.x * B.x + A.y * B.y + A.z * B.z ∧
      scalarProduct A B = scalarProduct B A := by
  refine ⟨rfl, ?_⟩
  simp only [scalarProduct, mulVecVec]
  ring

theorem scalarProduct_hadamard_sum_comm_check :
    scalarProduct (⟨1, 2, 3⟩ : Vector3D ℤ) ⟨4, 5, 6⟩ = 1 * 4 + 2 * 5 + 3 * 6 ∧
      scalarProduct (⟨1, 2, 3⟩ : Vector3D ℤ) ⟨4, 5, 6⟩ = scalarProduct ⟨4, 5, 6⟩ ⟨1, 2, 3⟩ :=
  scalarProduct_hadamard_sum_comm ℤ ⟨1, 2, 3⟩ ⟨4, 5, 6⟩

/-- C3: `distance(A, B)`, computed in the source directly as the square
root of the sum of squared component differences, equals
`module(A - B)` where `operator-` is the componentwise difference. -/
theorem distance_eq_module_sub (A B : Vector3D ℝ) :
    distance A B = module (subV A B) := rfl

theorem distance_eq_module_sub_check :
    distance (⟨1, 2, 2⟩ : Vector3D ℝ) ⟨0, 0, 0⟩ = module (subV ⟨1, 2, 2⟩ ⟨0, 0, 0⟩) :=
  distance_eq_module_sub ⟨1, 2, 2⟩ ⟨0, 0, 0⟩

/-- C4: `crossProduct(A, B)` is the vector
`(A.y*B.z - A.z*B.y, A.z*B.x - A.x*B.z, A.x*B.y - A.y*B.x)`, and in
particular `crossProduct((1,0,0), (0,1,0)) = (0,0,1)`. -/
theorem crossProduct_components (α : Type) [CommRing α] (A B : Vector3D α) :
    crossProduct A B =
        ⟨A.y * B.z - A.z * B.y, A.z * B.x - A.x * B.z, A.x * B.y - A.y * B.x⟩ ∧
      crossProduct (⟨1, 0, 0⟩ : Vector3D α) ⟨0, 1, 0⟩ = ⟨0, 0, 1⟩ := by
  refine ⟨rfl, ?_⟩
  simp only [crossProduct, Vector3D.mk.injEq]
  refine ⟨by ring, by ring, by ring⟩

theorem crossProduct_components_check :
    crossProduct (⟨2, 3, 4⟩ : Vector3D ℤ) ⟨5, 6, 7⟩ =
        ⟨3 * 7 - 4 * 6, 4 * 5 - 2 * 7, 2 * 6 - 3 * 5⟩ ∧
      crossProduct (⟨1, 0, 0⟩ : Vector3D ℤ) ⟨0, 1, 0⟩ = ⟨0, 0, 1⟩ :=
  crossProduct_components ℤ ⟨2, 3, 4⟩ ⟨5, 6, 7⟩

/-- C5: writing an integer vector with `operator<<` (the text
`"x, y, z"`) and reading the three numeric tokens back with
`operator>>` after the commas are turned into delimiters reconstructs
the vector exactly: all three components come back, the stream is fully
consumed, and no failbit is raised — independently of the target
vector's prior value and of the locals' junk values. -/
theorem write_read_roundtrip (A B : Vector3D Int) (jx jy jz : Int) :
    readVector3D ⟨stripCommas (writeVector A), false⟩ B jx jy jz = (⟨[], false⟩, A) := by
  obtain ⟨x, y, z⟩ := A
  have hw : stripCommas (writeVector ⟨x, y, z⟩) =
      intChars x ++ (' ' :: ' ' :: (intChars y ++ (' ' :: ' ' :: intChars z))) := by
    have ha : stripCommas [',', ' '] = [' ', ' '] := rfl
    show stripCommas (intChars x ++ [',', ' '] ++ intChars y ++ [',', ' '] ++ intChars z) = _
    rw [stripCommas_append, stripCommas_append, stripCommas_append, stripCommas_append, ha,
      stripCommas_eq_self (intChars_no_comma x), stripCommas_eq_self (intChars_no_comma y),
      stripCommas_eq_self (intChars_no_comma z)]
    simp [List.append_assoc]
  have hsp : ∀ (w : List Char) (c : Char) (t : List Char),
      (' ' :: w) = c :: t → isDigitCh c = false := by
    intro w c t hct
    cases hct
    decide
  have e1 : extractInt
        (intChars x ++ (' ' :: ' ' :: (intChars y ++ (' ' :: ' ' :: intChars z)))) =
      some (x, ' ' :: ' ' :: (intChars y ++ (' ' :: ' ' :: intChars z))) :=
    extractInt_intChars x (hsp _)
  have e2 : extractInt (' ' :: ' ' :: (intChars y ++ (' ' :: ' ' :: intChars z))) =
      some (y, ' ' :: ' ' :: intChars z) := by
    rw [extractInt_cons_space (by decide), extractInt_cons_space (by decide)]
    exact extractInt_intChars y (hsp _)
  have e3 : extractInt (' ' :: ' ' :: intChars z) = some (z, []) := by
    rw [extractInt_cons_space (by decide), extractInt_cons_space (by decide)]
    have hz := extractInt_intChars z (r := []) (by intro c t hct; cases hct)
    rwa [List.append_nil] at hz
  simp only [readVector3D, hw]
  simp only [extractStep, Bool.false_eq_true, if_false, e1, e2, e3]
  simp [setX, setY, setZ]

theorem write_read_roundtrip_check :
    readVector3D ⟨stripCommas (writeVector ⟨-12, 0, 345⟩), false⟩ ⟨7, 8, 9⟩ 1 2 3 =
      (⟨[], false⟩, ⟨-12, 0, 345⟩) :=
  write_read_roundtrip ⟨-12, 0, 345⟩ ⟨7, 8, 9⟩ 1 2 3

/-- C6: the cross product is anti-commutative:
`crossProduct(A, B) = -1 * crossProduct(B, A)`, where `-1 * V` is the
scalar-times-vector overload. -/
theorem crossProduct_antisymm (α : Type) [CommRing α] (A B : Vector3D α) :
    crossProduct A B = mulScalarVec (-1) (crossProduct B A) := by
  simp only [crossProduct, mulScalarVec, Vector3D.mk.injEq]
  refine ⟨by ring, by ring, by ring⟩

theorem crossProduct_antisymm_check :
    crossProduct (⟨1, 2, 3⟩ : Vector3D ℤ) ⟨4, 5, 6⟩ =
      mulScalarVec (-1) (crossProduct ⟨4, 5, 6⟩ ⟨1, 2, 3⟩) :=
  crossProduct_antisymm ℤ ⟨1, 2, 3⟩ ⟨4, 5, 6⟩

/-- C7: for integer components, `(A - B) + B = A` holds exactly, with
`operator-` the componentwise difference and `operator+` the
componentwise sum. -/
theorem sub_add_cancel_exact (A B : Vector3D ℤ) :
    addV (subV A B) B = A := by
  obtain ⟨ax, ay, az⟩ := A
  obtain ⟨bx, bY, bz⟩ := B
  simp only [addV, subV, Vector3D.mk.injEq]
  refine ⟨by ring, by ring, by ring⟩

theorem sub_add_cancel_exact_check :
    addV (subV (⟨3, -4, 5⟩ : Vector3D ℤ) ⟨1, 1, 2⟩) ⟨1, 1, 2⟩ = ⟨3, -4, 5⟩ :=
  sub_add_cancel_exact ⟨3, -4, 5⟩ ⟨1, 1, 2⟩

/-- C8: the two scalar-multiplication overloads agree for every scalar
and vector: `s * A = A * s`.  Both bodies in the source multiply each
component on the left by `s`, so the results coincide for any element
type with a multiplication, commutative or not. -/
theorem scalar_mul_order_irrelevant (α : Type) [Mul α] (s : α) (A : Vector3D α) :
    mulScalarVec s A = mulVecScalar A s := rfl

theorem scalar_mul_order_irrelevant_check :
    mulScalarVec (7 : ℤ) ⟨1, 2, 3⟩ = mulVecScalar ⟨1, 2, 3⟩ 7 :=
  scalar_mul_order_irrelevant ℤ 7 ⟨1, 2, 3⟩

/-- C9: each setter replaces exactly its own component and leaves the
other two unchanged, for every element type and every value `v`
(no validity check restricts `v`). -/
theorem setters_single_component (α : Type) (A : Vector3D α) (v : α) :
    (setX A v).x = v ∧ (setX A v).y = A.y ∧ (setX A v).z = A.z ∧
      (setY A v).y = v ∧ (setY A v).x = A.x ∧ (setY A v).z = A.z ∧
      (setZ A v).z = v ∧ (setZ A v).x = A.x ∧ (setZ A v).y = A.y :=
  ⟨rfl, rfl, rfl, rfl, rfl, rfl, rfl, rfl, rfl⟩

theorem setters_single_component_check :
    (setX (⟨1, 2, 3⟩ : Vector3D ℤ) 9).x = 9 ∧ (setX (⟨1, 2, 3⟩ : Vector3D ℤ) 9).y = 2 ∧
      (setX (⟨1, 2, 3⟩ : Vector3D ℤ) 9).z = 3 ∧
      (setY (⟨1, 2, 3⟩ : Vector3D ℤ) 9).y = 9 ∧ (setY (⟨1, 2, 3⟩ : Vector3D ℤ) 9).x = 1 ∧
      (setY (⟨1, 2, 3⟩ : Vector3D ℤ) 9).z = 3 ∧
      (setZ (⟨1, 2, 3⟩ : Vector3D ℤ) 9).z = 9 ∧ (setZ (⟨1, 2, 3⟩ : Vector3D ℤ) 9).x = 1 ∧
      (setZ (⟨1, 2, 3⟩ : Vector3D ℤ) 9).y = 2 :=
  setters_single_component ℤ ⟨1, 2, 3⟩ 9

/-- C10: `operator>>` is not atomic on error: on every invocation —
the failing ones included — it assigns all three components of the
target from the freshly extracted locals, so the result never depends
on the vector's prior value, and it equals exactly the vector of the
three chained extraction results. -/
theorem read_not_atomic (s : IStreamState) (A B : Vector3D Int) (jx jy jz : Int) :
    (readVector3D s A jx jy jz).2 = (readVector3D s B jx jy jz).2 ∧
      (readVector3D s A jx jy jz).2 =
        ⟨(extractStep s jx).2, (extractStep (extractStep s jx).1 jy).2,
          (extractStep (extractStep (extractStep s jx).1 jy).1 jz).2⟩ :=
  ⟨rfl, rfl⟩

theorem read_not_atomic_check :
    (readVector3D ⟨[], false⟩ ⟨1, 2, 3⟩ 7 8 9).2 = (readVector3D ⟨[], false⟩ ⟨4, 5, 6⟩ 7 8 9).2 ∧
      (readVector3D ⟨[], false⟩ ⟨1, 2, 3⟩ 7 8 9).2 =
        ⟨(extractStep ⟨[], false⟩ 7).2, (extractStep (extractStep ⟨[], false⟩ 7).1 8).2,
          (extractStep (extractStep (extractStep ⟨[], false⟩ 7).1 8).1 9).2⟩ :=
  read_not_atomic ⟨[], false⟩ ⟨1, 2, 3⟩ ⟨4, 5, 6⟩ 7 8 9

end Vec3
